import Mathlib

/-!
Verification of `sweagent/agent/pattern_detector.py`

A shallow embedding of the `ErrorPatternDetector` class and its helper
functions, together with theorems settling the specification claims.

Modelling conventions:
* Python dictionaries used as records become Lean structures; the optional
  report fields (`file`, `line`, ...) are `Option`s, with `.getD` playing the
  role of `dict.get(key, default)`.
* A Python string value that may be `None` is modelled by `PyStr`.
* The `defaultdict(int)` counter `pattern_counters` is modelled by an
  association list in insertion order (Python dicts preserve insertion
  order); `counterIncr` appends a fresh key at the end, exactly as a
  `defaultdict` does on first increment.
* `raise ValueError` becomes `Except.error`; the surrounding mutable object
  semantics (an exception leaves the object untouched) is captured by
  `applyOp`, which keeps the old state on `Except.error`.
* `re.search(pattern, msg, re.IGNORECASE)` is modelled by `piecesMatch`:
  every regex in `known_patterns` is an alternation of literals, except two
  alternatives containing a single `.*` gap, so a pattern alternative is a
  list of literal pieces that must occur in order, case-insensitively.
  (The difference between `.*` and "any gap" — `.` does not match a newline
  in Python — is immaterial here: no claim involves multi-line messages.)
* Python floats (`error_rate`, `avg_errors_per_file`) are modelled by `Rat`;
  no claim depends on binary floating-point rounding.
-/

namespace PatternDetector

/-! Generic list utilities used by the embedding -/

/-- Test whether `needle` is an initial segment of `hay`. -/
def matchesAt : List Char → List Char → Bool
  | [], _ => true
  | _ :: _, [] => false
  | a :: as, b :: bs => a == b && matchesAt as bs

/-- Search for the first occurrence of `needle` in `hay`; on success return
the remainder of `hay` after that occurrence (as Python `re` does when
scanning for the next literal piece). -/
def dropAfterHit (needle : List Char) : List Char → Option (List Char)
  | [] => if needle.isEmpty then some [] else none
  | c :: rest =>
      if matchesAt needle (c :: rest) then some ((c :: rest).drop needle.length)
      else dropAfterHit needle rest

/-- The pieces of one regex alternative (the literals around `.*`) occur in
order, case-insensitively, inside the already-lowercased character list. -/
def piecesMatch : List String → List Char → Bool
  | [], _ => true
  | p :: ps, hay =>
      match dropAfterHit (p.data.map Char.toLower) hay with
      | some rest => piecesMatch ps rest
      | none => false

/-- First-seen deduplication with an explicit `seen` accumulator: the model
of iterating a Python `dict`/`set` built by insertion. -/
def firstSeenNew {α : Type} [DecidableEq α] (seen : List α) : List α → List α
  | [] => []
  | t :: m => if t ∈ seen then firstSeenNew seen m else t :: firstSeenNew (seen ++ [t]) m

/-- The distinct elements of a list in first-occurrence order.
`(distincts l).length` models Python `len(set(l))`. -/
def distincts {α : Type} [DecidableEq α] (l : List α) : List α :=
  firstSeenNew [] l

/-- Index of the first occurrence of `t` (length of the list if absent). -/
def firstIdx {α : Type} [DecidableEq α] (t : α) : List α → Nat
  | [] => 0
  | x :: xs => if x = t then 0 else firstIdx t xs + 1

/-- Number of occurrences of `t` in `m`. -/
def countS {α : Type} [DecidableEq α] (t : α) (m : List α) : Nat :=
  (m.filter (fun x => x = t)).length

/-- Counter lookup: `defaultdict(int)` read (0 for a missing key). -/
def counterGet : List (String × Nat) → String → Nat
  | [], _ => 0
  | (k', n) :: rest, k => if k' = k then n else counterGet rest k

/-- Counter increment: `counters[k] += 1` on a `defaultdict(int)` — update
the existing entry in place, or append a fresh `(k, 1)` entry at the end. -/
def counterIncr : List (String × Nat) → String → List (String × Nat)
  | [], k => [(k, 1)]
  | (k', n) :: rest, k => if k' = k then (k', n + 1) :: rest else (k', n) :: counterIncr rest k

/-- Sum of all counter values. -/
def counterSum (cs : List (String × Nat)) : Nat :=
  (cs.map (fun p => p.2)).sum

/-- One comparison step of Python `max(..., key=lambda x: x[1])`: the
running best is replaced only by a strictly greater value, so ties go to
the earliest element. -/
def pickMax (best y : String × Nat) : String × Nat :=
  if best.2 < y.2 then y else best

/-- Python `max(items, key=lambda x: x[1])` over a non-empty list. -/
def maxByCount : List (String × Nat) → Option (String × Nat)
  | [] => none
  | x :: xs => some (xs.foldl pickMax x)

/-! Data model -/

/-- A Python string value that may be `None`. -/
inductive PyStr where
  | noneV : PyStr
  | strV : String → PyStr
  deriving DecidableEq, Repr

/-- Truthiness of a `message` value: `None` and `""` are falsy. -/
def PyStr.isFalsy : PyStr → Bool
  | .noneV => true
  | .strV s => s.isEmpty

/-- The `error_info` dictionary passed to `add_error`.  `message = none`
models the *absence* of the `'message'` key; `some .noneV` models the key
being present with value `None`.  The remaining optional keys are read with
`dict.get(key, default)`. -/
structure ErrorInfo where
  message : Option PyStr
  file : Option String
  line : Option Int
  action : Option String
  code_snippet : Option String
  traceback : Option String
  deriving DecidableEq, Repr

/-- The structured history entry built by `add_error`
(`timestamp` is `len(self.error_history)` at insertion time). -/
structure ErrorRecord where
  timestamp : Nat
  error_type : String
  message : PyStr
  file : String
  line : Int
  action : String
  code_snippet : String
  traceback : String
  deriving DecidableEq, Repr

/-- The detector's mutable state: `error_history` and `pattern_counters`. -/
structure DetectorState where
  error_history : List ErrorRecord
  pattern_counters : List (String × Nat)
  deriving DecidableEq, Repr

/-- Source `ErrorPatternDetector.__init__`: empty history, empty counters. -/
def initState : DetectorState :=
  { error_history := [], pattern_counters := [] }

/-! Classifier -/

/-- Source `self.known_patterns`, in declaration order.  Each regex is an
alternation; each alternative is the list of its literal pieces (two
alternatives contain a `.*` gap and hence have two pieces). -/
def known_patterns : List (String × List (List String)) :=
  [("indentation", [["IndentationError"], ["unexpected indent"],
                    ["expected an indented block"], ["unindent does not match"]]),
   ("syntax", [["SyntaxError"], ["invalid syntax"], ["EOF while scanning"],
               ["unterminated string"], ["unexpected EOF"], ["invalid character"]]),
   ("undefined", [["NameError"], ["undefined"], ["not defined"],
                  ["name ", " is not defined"]]),
   ("import", [["ImportError"], ["ModuleNotFoundError"], ["cannot import"],
               ["No module named"]]),
   ("type", [["TypeError"], ["AttributeError"], ["object has no attribute"],
             ["takes ", " positional argument"]]),
   ("logic", [["IndexError"], ["KeyError"], ["ValueError"],
              ["list index out of range"], ["dictionary key error"]])]

/-- Source `ErrorPatternDetector._classify_error`: falsy messages are `unknown`;
otherwise the first category (in declaration order) with a matching
alternative wins, else `unknown`. -/
def classifyError (msg : PyStr) : String :=
  if msg.isFalsy then "unknown"
  else
    match msg with
    | .noneV => "unknown"
    | .strV s =>
        let hay := s.data.map Char.toLower
        match known_patterns.findSome?
            (fun p => if p.2.any (fun alt => piecesMatch alt hay) then some p.1 else none) with
        | some name => name
        | none => "unknown"

/-! Ingestion -/

/-- Source `ErrorPatternDetector.add_error`.  Raising `ValueError` is modelled by
`Except.error` carrying the message text. -/
def add_error (st : DetectorState) (error_info : ErrorInfo) : Except String DetectorState :=
  match error_info.message with
  | none => .error "error_info debe contener el campo 'message'"
  | some msg =>
      let error_type := classifyError msg
      let entry : ErrorRecord :=
        { timestamp := st.error_history.length
          error_type := error_type
          message := msg
          file := error_info.file.getD ""
          line := error_info.line.getD 0
          action := error_info.action.getD ""
          code_snippet := error_info.code_snippet.getD ""
          traceback := error_info.traceback.getD "" }
      .ok { error_history := st.error_history ++ [entry]
            pattern_counters := counterIncr st.pattern_counters error_type }

/-- One API call that mutates the detector: `add_error` or `reset`. -/
inductive Op where
  | add : ErrorInfo → Op
  | reset : Op

/-- Effect of one call on the state.  A raised `ValueError` propagates to
the caller and leaves the detector untouched; `reset` clears both fields. -/
def applyOp (st : DetectorState) : Op → DetectorState
  | .add info =>
      match add_error st info with
      | .ok st' => st'
      | .error _ => st
  | .reset => initState

/-- The state after a sequence of calls on a freshly constructed detector. -/
def runOps (ops : List Op) : DetectorState :=
  ops.foldl applyOp initState

/-! Loop detector -/

/-- Python slicing `l[-w:]`.  Note the corner case: `l[-0:]` is the whole
list, not the empty list. -/
def lastWindow {α : Type} (l : List α) (w : Nat) : List α :=
  if w = 0 then l else l.drop (l.length - w)

/-- Model of `[e['line'] for e in recent if e['line'] > 0]`. -/
def linesOf (recent : List ErrorRecord) : List Int :=
  (recent.filter (fun e => 0 < e.line)).map (fun e => e.line)

/-- Model of `[e['file'] for e in recent if e['file']]`. -/
def filesOf (recent : List ErrorRecord) : List String :=
  (recent.filter (fun e => e.file ≠ "")).map (fun e => e.file)

/-- Python `t[0]` on a type tag: the first character of the type name
(type names produced by the classifier are never empty). -/
def firstChar (s : String) : Char :=
  s.data.headI

/-- Every adjacent pair of the list differs
(`all(pattern[i] != pattern[i+1] for i in range(len(pattern)-1))`). -/
def adjacentAllNe {α : Type} [DecidableEq α] : List α → Bool
  | [] => true
  | [_] => true
  | a :: b :: rest => a ≠ b && adjacentAllNe (b :: rest)

/-- Source `ErrorPatternDetector._is_alternating`. -/
def isAlternating (pattern : List Char) : Bool :=
  if pattern.length < 4 then false
  else adjacentAllNe pattern

/-- The reason string returned with a detected loop.  Rule 3 interpolates a
Python `set` (whose textual order is unspecified), so the reasons are
modelled structurally: each constructor carries exactly the data the source
interpolates into the corresponding f-string. -/
inductive LoopReason where
  | repetitiveType : String → LoopReason
  | sameLine : Int → LoopReason
  | alternating : List String → LoopReason
  | sameFile : String → LoopReason
  deriving DecidableEq, Repr

/-- The window `recent_errors = self.error_history[-window_size:]`. -/
def recentWindow (st : DetectorState) (w : Nat) : List ErrorRecord :=
  lastWindow st.error_history w

/-- The per-record type tags `[e['error_type'] for e in recent_errors]`. -/
def windowTypes (st : DetectorState) (w : Nat) : List String :=
  (recentWindow st w).map (fun e => e.error_type)

/-- Source `ErrorPatternDetector.detect_loop` (the source's default for
`window_size` is 5).  The four rules are evaluated in source order with the
source's guards; `distincts xs` stands for iteration over `set(xs)` and
`(distincts xs).length` for `len(set(xs))`. -/
def detect_loop (st : DetectorState) (window_size : Nat) : Bool × Option LoopReason :=
  if st.error_history.length < window_size then (false, none)
  else if (distincts (windowTypes st window_size)).length = 1 ∧
      (windowTypes st window_size).headI ≠ "unknown" then
    (true, some (.repetitiveType (windowTypes st window_size).headI))
  else if 3 ≤ (linesOf (recentWindow st window_size)).length ∧
      (distincts (linesOf (recentWindow st window_size))).length = 1 then
    (true, some (.sameLine (linesOf (recentWindow st window_size)).headI))
  else if (distincts (windowTypes st window_size)).length = 2 ∧
      isAlternating ((windowTypes st window_size).map firstChar) then
    (true, some (.alternating (distincts (windowTypes st window_size))))
  else if (distincts (filesOf (recentWindow st window_size))).length = 1 ∧
      4 ≤ (filesOf (recentWindow st window_size)).length ∧
      4 ≤ ((recentWindow st window_size).filter
            (fun e => e.file = (filesOf (recentWindow st window_size)).headI)).length then
    (true, some (.sameFile (filesOf (recentWindow st window_size)).headI))
  else (false, none)

/-! Suggestion synthesizer -/

/-- One appended block of the recovery-suggestion string.  The suggestion is
built by string concatenation in the source; it is modelled as the ordered
list of its blocks, each constructor carrying the data interpolated into the
corresponding template (`base` carries the `error_type` used for the
`suggestions.get(error_type, generic)` lookup). -/
inductive SuggestionPart where
  | base : String → SuggestionPart
  | frequencyWarning : Nat → String → SuggestionPart
  | totalWarning : Nat → SuggestionPart
  deriving DecidableEq, Repr

/-- Source `ErrorPatternDetector.get_recovery_suggestion`.  (Reading
`self.pattern_counters[error_type]` cannot insert a new key here: the most
recent record's type was counted by `add_error`.) -/
def get_recovery_suggestion (st : DetectorState) : Option (List SuggestionPart) :=
  match st.error_history.getLast? with
  | none => none
  | some recent_error =>
      some
        ((if 3 ≤ counterGet st.pattern_counters recent_error.error_type then
            [SuggestionPart.base recent_error.error_type,
             SuggestionPart.frequencyWarning
               (counterGet st.pattern_counters recent_error.error_type)
               recent_error.error_type]
          else [SuggestionPart.base recent_error.error_type]) ++
         (if 7 ≤ st.error_history.length then
            [SuggestionPart.totalWarning st.error_history.length]
          else []))

/-- Source `ErrorPatternDetector.should_suggest_alternative_approach`.  The source
is a chain of early returns; it is rendered as the corresponding
disjunction, preserving each guard. -/
def should_suggest_alternative_approach (st : DetectorState) : Bool :=
  if st.error_history.length < 3 then false
  else
    (if 5 ≤ st.error_history.length then
       decide (4 ≤ (lastWindow st.error_history 5).length)
     else false) ||
    (if 3 ≤ st.error_history.length then
       decide ((distincts ((lastWindow st.error_history 3).map (fun e => e.error_type))).length = 1 ∧
         ((lastWindow st.error_history 3).map (fun e => e.error_type)).headI ≠ "unknown")
     else false) ||
    decide (8 ≤ st.error_history.length)

/-! Statistics -/

/-- Source `ErrorPatternDetector._count_recovery_attempts`: adjacent pairs
`(prev, curr)` where the same positive line repeats, or (`elif`) the same
non-empty file repeats with both lines positive and within 10. -/
def countRecoveryAttempts (l : List ErrorRecord) : Nat :=
  ((l.zip l.tail).filter (fun p =>
    (p.2.line = p.1.line ∧ 0 < p.2.line) ∨
    (p.2.file = p.1.file ∧ p.2.file ≠ "" ∧ 0 < p.2.line ∧ 0 < p.1.line ∧
      (p.2.line - p.1.line).natAbs ≤ 10))).length

/-- Source `ErrorPatternDetector._count_consecutive_same_type`: the trailing run of
records sharing the last record's `error_type` (0 on an empty history). -/
def countConsecutiveSameType (l : List ErrorRecord) : Nat :=
  match l.getLast? with
  | none => 0
  | some last =>
      (l.reverse.takeWhile (fun e => e.error_type = last.error_type)).length

/-- Source `ErrorPatternDetector.get_error_rate`: `min(len(history), 5) / 5` as a
float (modelled exactly as a rational), 0.0 on an empty history. -/
def get_error_rate (st : DetectorState) : Rat :=
  if st.error_history = [] then 0
  else (min st.error_history.length 5 : Rat) / 5

/-- A value stored in the statistics dictionary. -/
inductive StatValue where
  | natV : Nat → StatValue
  | optStr : Option String → StatValue
  | byTypeV : List (String × Nat) → StatValue
  | ratV : Rat → StatValue
  deriving DecidableEq, Repr

/-- Source `ErrorPatternDetector.get_statistics`, as the ordered key/value list the
source builds.  The empty-history branch returns the seven-key literal of
the source (it has no `error_rate` / `consecutive_same_type` keys). -/
def get_statistics (st : DetectorState) : List (String × StatValue) :=
  if st.error_history = [] then
    [("total_errors", .natV 0),
     ("by_type", .byTypeV []),
     ("recent_errors", .natV 0),
     ("recovery_attempts", .natV 0),
     ("most_common_error", .optStr none),
     ("unique_files_affected", .natV 0),
     ("avg_errors_per_file", .ratV 0)]
  else
    [("total_errors", .natV st.error_history.length),
     ("by_type", .byTypeV st.pattern_counters),
     ("recent_errors", .natV (lastWindow st.error_history 5).length),
     ("recovery_attempts", .natV (countRecoveryAttempts st.error_history)),
     ("most_common_error", .optStr ((maxByCount st.pattern_counters).map (fun p => p.1))),
     ("unique_files_affected", .natV (distincts (filesOf st.error_history)).length),
     ("avg_errors_per_file",
        .ratV ((st.error_history.length : Rat) /
          (max 1 (distincts (filesOf st.error_history)).length : Nat))),
     ("error_rate", .ratV (get_error_rate st)),
     ("consecutive_same_type", .natV (countConsecutiveSameType st.error_history))]

/-- Dictionary lookup in a statistics structure. -/
def statLookup (stats : List (String × StatValue)) (k : String) : Option StatValue :=
  (stats.find? (fun p => p.1 = k)).map (fun p => p.2)

/-! Auxiliary definitions: success marker, invariants, counter
characterizations, and the concrete reports and call sequences used to
instantiate theorems -/

/-- Success marker for the `Except`-modelled `add_error`. -/
def isOkE : Except String DetectorState → Bool
  | .ok _ => true
  | .error _ => false

/-- A well-formed syntax-error report. -/
def infoSyntax : ErrorInfo :=
  { message := some (.strV "SyntaxError: invalid syntax"), file := some "f.py",
    line := some 3, action := none, code_snippet := none, traceback := none }

/-- A well-formed indentation-error report without file or line. -/
def infoIndent : ErrorInfo :=
  { message := some (.strV "IndentationError: unexpected indent"), file := none,
    line := none, action := none, code_snippet := none, traceback := none }

/-- A well-formed import-error report without file or line. -/
def infoImport : ErrorInfo :=
  { message := some (.strV "ImportError: cannot import"), file := none,
    line := none, action := none, code_snippet := none, traceback := none }

/-- A syntax-error report without file or line. -/
def infoSyntaxBare : ErrorInfo :=
  { message := some (.strV "SyntaxError: invalid syntax"), file := none,
    line := none, action := none, code_snippet := none, traceback := none }

/-- A report whose dictionary omits the `'message'` key. -/
def infoNoMsg : ErrorInfo :=
  { message := none, file := some "f.py", line := some 3,
    action := none, code_snippet := none, traceback := none }

/-- A report whose `'message'` key is present with value `None`. -/
def infoNoneMsg : ErrorInfo :=
  { message := some .noneV, file := some "f.py", line := some 3,
    action := none, code_snippet := none, traceback := none }

/-- A report whose `'message'` key is present with value `""`. -/
def infoEmptyMsg : ErrorInfo :=
  { message := some (.strV ""), file := none, line := none,
    action := none, code_snippet := none, traceback := none }

/-- The call sequence producing a 5-record history strictly alternating
between `indentation` and `import` (no files, no lines). -/
def c1Ops : List Op :=
  [.add infoIndent, .add infoImport, .add infoIndent, .add infoImport, .add infoIndent]

/-- The call sequence producing a 5-record history strictly alternating
between `syntax` and `indentation` (no files, no lines). -/
def altOps : List Op :=
  [.add infoSyntaxBare, .add infoIndent, .add infoSyntaxBare, .add infoIndent,
   .add infoSyntaxBare]

/-- The call sequence producing seven identical syntax errors. -/
def sevenOps : List Op :=
  List.replicate 7 (Op.add infoSyntaxBare)

/-- The most recent record after `sevenOps`. -/
def rec7 : ErrorRecord :=
  { timestamp := 6, error_type := "syntax",
    message := .strV "SyntaxError: invalid syntax", file := "", line := 0,
    action := "", code_snippet := "", traceback := "" }

/-- The suggestion parts produced after `sevenOps`. -/
def parts7 : List SuggestionPart :=
  [.base "syntax", .frequencyWarning 7 "syntax", .totalWarning 7]

/-- Positional indexing invariant for the history. -/
def timestampsIndexed (l : List ErrorRecord) : Prop :=
  ∀ i (h : i < l.length), (l.get ⟨i, h⟩).timestamp = i

/-- Joint state invariant: positional timestamps and counter total. -/
def stateInv (st : DetectorState) : Prop :=
  timestampsIndexed st.error_history ∧
  counterSum st.pattern_counters = st.error_history.length

/-- A call sequence mixing successful adds, a reset and a failing add. -/
def c4Ops : List Op :=
  [.add infoSyntax, .reset, .add infoIndent, .add infoNoMsg, .add infoSyntax]

/-- Counters produced by folding `counterIncr` over a list of type tags. -/
def countersOfTypes (m : List String) : List (String × Nat) :=
  m.foldl counterIncr []

/-- A call sequence in which `syntax` and `indentation` end up tied with
two occurrences each, `syntax` first seen. -/
def tieOps : List Op :=
  [.add infoSyntaxBare, .add infoIndent, .add infoIndent, .add infoSyntaxBare]

/-! Lemmas about the generic utilities -/

theorem mem_firstSeenNew {α : Type} [DecidableEq α] {x : α} :
    ∀ {seen m : List α}, x ∈ firstSeenNew seen m ↔ x ∈ m ∧ x ∉ seen := by
  intro seen m
  induction m generalizing seen with
  | nil => simp [firstSeenNew]
  | cons t m ih =>
      by_cases ht : t ∈ seen
      · rw [firstSeenNew, if_pos ht, ih]
        constructor
        · rintro ⟨hm, hs⟩
          exact ⟨List.mem_cons_of_mem _ hm, hs⟩
        · rintro ⟨hm, hs⟩
          rcases List.mem_cons.1 hm with h | h
          · exact absurd (h ▸ ht) hs
          · exact ⟨h, hs⟩
      · rw [firstSeenNew, if_neg ht]
        by_cases hx : x = t
        · subst hx
          simp [ht]
        · simp only [List.mem_cons, hx, false_or]
          rw [ih]
          simp [List.mem_append, hx]

theorem mem_distincts {α : Type} [DecidableEq α] {x : α} {l : List α} :
    x ∈ distincts l ↔ x ∈ l := by
  rw [distincts, mem_firstSeenNew]
  simp

theorem firstSeenNew_eq_nil {α : Type} [DecidableEq α] {seen m : List α} :
    firstSeenNew seen m = [] ↔ ∀ x ∈ m, x ∈ seen := by
  induction m generalizing seen with
  | nil => simp [firstSeenNew]
  | cons t m ih =>
      by_cases ht : t ∈ seen
      · rw [firstSeenNew, if_pos ht, ih]
        constructor
        · intro h x hx
          rcases List.mem_cons.1 hx with h' | h'
          · exact h' ▸ ht
          · exact h x h'
        · intro h x hx
          exact h x (List.mem_cons_of_mem _ hx)
      · rw [firstSeenNew, if_neg ht]
        constructor
        · intro h
          exact absurd h (List.cons_ne_nil _ _)
        · intro h
          exact absurd (h t (List.mem_cons_self _ _)) ht

theorem distincts_cons {α : Type} [DecidableEq α] (t : α) (m : List α) :
    distincts (t :: m) = t :: firstSeenNew [t] m := by
  simp [distincts, firstSeenNew]

theorem distincts_eq_singleton {α : Type} [DecidableEq α] {l : List α} {t : α} :
    distincts l = [t] ↔ l ≠ [] ∧ ∀ x ∈ l, x = t := by
  cases l with
  | nil => simp [distincts, firstSeenNew]
  | cons a m =>
      rw [distincts_cons]
      constructor
      · intro h
        have ha : a = t := (List.cons.injEq _ _ _ _ ▸ h).1
        have hm : firstSeenNew [a] m = [] := (List.cons.injEq _ _ _ _ ▸ h).2
        subst ha
        refine ⟨List.cons_ne_nil _ _, ?_⟩
        intro x hx
        rcases List.mem_cons.1 hx with h' | h'
        · exact h'
        · have := firstSeenNew_eq_nil.1 hm x h'
          simpa using this
      · rintro ⟨-, hall⟩
        have ha : a = t := hall a (List.mem_cons_self _ _)
        subst ha
        have : firstSeenNew [a] m = [] := by
          rw [firstSeenNew_eq_nil]
          intro x hx
          have := hall x (List.mem_cons_of_mem _ hx)
          simpa using this
        rw [this]

theorem headI_of_all_eq {α : Type} [Inhabited α] {l : List α} {t : α}
    (hne : l ≠ []) (hall : ∀ x ∈ l, x = t) : l.headI = t := by
  cases l with
  | nil => exact absurd rfl hne
  | cons a m => exact hall a (List.mem_cons_self _ _)

theorem distincts_headI {α : Type} [DecidableEq α] [Inhabited α] {l : List α}
    (hne : l ≠ []) : (distincts l).headI = l.headI := by
  cases l with
  | nil => exact absurd rfl hne
  | cons a m => rw [distincts_cons]; rfl

theorem distincts_length_one {α : Type} [DecidableEq α] [Inhabited α] {l : List α}
    (h : (distincts l).length = 1) : distincts l = [l.headI] := by
  have hne : l ≠ [] := by
    intro h'
    subst h'
    simp [distincts, firstSeenNew] at h
  cases hd : distincts l with
  | nil => rw [hd] at h; simp at h
  | cons a m =>
      rw [hd] at h
      simp only [List.length_cons, Nat.succ_inj] at h
      have hm : m = [] := List.length_eq_zero.1 h
      subst hm
      have : a = l.headI := by
        have := distincts_headI (l := l) hne
        rw [hd] at this
        simpa using this
      rw [this]

theorem lastWindow_length {α : Type} {l : List α} {w : Nat}
    (hw : w ≠ 0) (hle : w ≤ l.length) : (lastWindow l w).length = w := by
  rw [lastWindow, if_neg hw, List.length_drop]
  omega

/-! Lemmas about the counters -/

theorem counterGet_incr_self (cs : List (String × Nat)) (k : String) :
    counterGet (counterIncr cs k) k = counterGet cs k + 1 := by
  induction cs with
  | nil => simp [counterIncr, counterGet]
  | cons p rest ih =>
      obtain ⟨k', n⟩ := p
      by_cases h : k' = k
      · subst h
        simp [counterIncr, counterGet]
      · simp [counterIncr, counterGet, h, ih]

theorem counterGet_incr_ne (cs : List (String × Nat)) (k t : String) (hne : t ≠ k) :
    counterGet (counterIncr cs k) t = counterGet cs t := by
  induction cs with
  | nil =>
      have hk : ¬ k = t := fun h => hne h.symm
      simp [counterIncr, counterGet, hk]
  | cons p rest ih =>
      obtain ⟨k', n⟩ := p
      by_cases h : k' = k
      · subst h
        have hk : ¬ k' = t := fun h => hne h.symm
        simp [counterIncr, counterGet, hk]
      · by_cases h' : k' = t
        · subst h'
          simp [counterIncr, counterGet, h]
        · simp [counterIncr, counterGet, h, h', ih]

theorem counterSum_incr (cs : List (String × Nat)) (k : String) :
    counterSum (counterIncr cs k) = counterSum cs + 1 := by
  induction cs with
  | nil => simp [counterIncr, counterSum]
  | cons p rest ih =>
      obtain ⟨k', n⟩ := p
      by_cases h : k' = k
      · subst h
        simp [counterIncr, counterSum]
        omega
      · simp only [counterIncr, if_neg h, counterSum, List.map_cons, List.sum_cons] at ih ⊢
        omega

/-! Concrete reports and call sequences used to instantiate the theorems -/

/-! Claim C2: a report without the mandatory message key raises and leaves
the state unchanged -/

/-- C2: for every prior state, calling `add_error` with a report that lacks
the `'message'` key raises the `ValueError` (`InvalidReport`) failure, and
the detector's state — history and type counters — is unchanged by the
call. -/
theorem claim_C2 (st : DetectorState) (info : ErrorInfo) (h : info.message = none) :
    add_error st info = Except.error "error_info debe contener el campo 'message'" ∧
    applyOp st (Op.add info) = st := by
  constructor
  · simp [add_error, h]
  · simp [applyOp, add_error, h]

/-- Witness for C2 at a concrete state and report. -/
theorem claim_C2_witness :
    add_error initState infoNoMsg = Except.error "error_info debe contener el campo 'message'" ∧
    applyOp initState (Op.add infoNoMsg) = initState :=
  claim_C2 initState infoNoMsg rfl

/-! Claim C3: a valid report appends exactly one record and bumps exactly
one counter -/

/-- C3: for every prior state and every report whose `'message'` key is
present (with value `m`), `add_error` succeeds; the history grows by exactly
one record, the counter of `classify(m)` grows by exactly one while every
other type's counter is unchanged, and the appended record's
`sequence_index` (`timestamp`) is the history length before the append. -/
theorem claim_C3 (st : DetectorState) (info : ErrorInfo) (m : PyStr)
    (h : info.message = some m) :
    isOkE (add_error st info) = true ∧
    ∀ st', add_error st info = Except.ok st' →
      st'.error_history.length = st.error_history.length + 1 ∧
      counterGet st'.pattern_counters (classifyError m) =
        counterGet st.pattern_counters (classifyError m) + 1 ∧
      (∀ t, t ≠ classifyError m →
        counterGet st'.pattern_counters t = counterGet st.pattern_counters t) ∧
      st'.error_history.getLast?.map (fun e => e.timestamp) =
        some st.error_history.length := by
  constructor
  · simp [add_error, h, isOkE]
  · intro st' hok
    simp only [add_error, h] at hok
    injection hok with hok
    subst hok
    refine ⟨by simp, counterGet_incr_self _ _, ?_, ?_⟩
    · intro t ht
      exact counterGet_incr_ne _ _ _ ht
    · simp

/-- Witness for C3 at a concrete state and report. -/
theorem claim_C3_witness :
    isOkE (add_error initState infoSyntax) = true ∧
    ((applyOp initState (Op.add infoSyntax)).error_history.length =
        initState.error_history.length + 1 ∧
      counterGet (applyOp initState (Op.add infoSyntax)).pattern_counters
          (classifyError (.strV "SyntaxError: invalid syntax")) =
        counterGet initState.pattern_counters
          (classifyError (.strV "SyntaxError: invalid syntax")) + 1 ∧
      (∀ t, t ≠ classifyError (.strV "SyntaxError: invalid syntax") →
        counterGet (applyOp initState (Op.add infoSyntax)).pattern_counters t =
          counterGet initState.pattern_counters t) ∧
      (applyOp initState (Op.add infoSyntax)).error_history.getLast?.map
          (fun e => e.timestamp) =
        some initState.error_history.length) :=
  ⟨(claim_C3 initState infoSyntax (.strV "SyntaxError: invalid syntax") rfl).1,
   (claim_C3 initState infoSyntax (.strV "SyntaxError: invalid syntax") rfl).2
     (applyOp initState (Op.add infoSyntax)) rfl⟩

/-! Claim C10: a present-but-falsy message value does not raise and is
classified as unknown -/

/-- C10: if the `'message'` key is present but its value is `None` (or the
empty string), `add_error` does not raise; a record classified as `unknown`
is appended and the `unknown` counter is bumped — the `InvalidReport`
failure fires only when the key itself is absent. -/
theorem claim_C10 (st : DetectorState) (info : ErrorInfo) :
    (info.message = some PyStr.noneV →
      add_error st info = Except.ok
        { error_history := st.error_history ++
            [{ timestamp := st.error_history.length, error_type := "unknown",
               message := PyStr.noneV, file := info.file.getD "",
               line := info.line.getD 0, action := info.action.getD "",
               code_snippet := info.code_snippet.getD "",
               traceback := info.traceback.getD "" }],
          pattern_counters := counterIncr st.pattern_counters "unknown" }) ∧
    (info.message = some (PyStr.strV "") →
      add_error st info = Except.ok
        { error_history := st.error_history ++
            [{ timestamp := st.error_history.length, error_type := "unknown",
               message := PyStr.strV "", file := info.file.getD "",
               line := info.line.getD 0, action := info.action.getD "",
               code_snippet := info.code_snippet.getD "",
               traceback := info.traceback.getD "" }],
          pattern_counters := counterIncr st.pattern_counters "unknown" }) := by
  constructor
  · intro h
    simp [add_error, h, show classifyError PyStr.noneV = "unknown" from rfl]
  · intro h
    simp [add_error, h, show classifyError (PyStr.strV "") = "unknown" from rfl]

/-- Witness for C10 at a concrete state and report with a `None` message. -/
theorem claim_C10_witness :
    add_error initState infoNoneMsg = Except.ok
      { error_history := initState.error_history ++
          [{ timestamp := initState.error_history.length, error_type := "unknown",
             message := PyStr.noneV, file := infoNoneMsg.file.getD "",
             line := infoNoneMsg.line.getD 0, action := infoNoneMsg.action.getD "",
             code_snippet := infoNoneMsg.code_snippet.getD "",
             traceback := infoNoneMsg.traceback.getD "" }],
        pattern_counters := counterIncr initState.pattern_counters "unknown" } :=
  (claim_C10 initState infoNoneMsg).1 rfl

/-! Claim C6: the statistics structure for an empty history -/

/-- C6 counterexample: on the empty history the structure returned by
`get_statistics` does *not* contain the `error_rate` and
`consecutive_same_type` fields (it has exactly seven keys), contradicting
the claim that every field of the non-empty case is present. -/
theorem claim_C6_counterexample :
    statLookup (get_statistics initState) "error_rate" = none ∧
    statLookup (get_statistics initState) "consecutive_same_type" = none ∧
    (get_statistics initState).length = 7 := by decide

/-- C6 (amended): for every state with an empty history, `get_statistics`
returns the zero-valued structure with exactly the seven fields
`total_errors`, `by_type`, `recent_errors`, `recovery_attempts`,
`most_common_error`, `unique_files_affected` and `avg_errors_per_file`; the
fields `error_rate` and `consecutive_same_type` of the non-empty case are
absent from it. -/
theorem claim_C6_amended (st : DetectorState) (h : st.error_history = []) :
    get_statistics st =
      [("total_errors", .natV 0), ("by_type", .byTypeV []), ("recent_errors", .natV 0),
       ("recovery_attempts", .natV 0), ("most_common_error", .optStr none),
       ("unique_files_affected", .natV 0), ("avg_errors_per_file", .ratV 0)] ∧
    statLookup (get_statistics st) "error_rate" = none ∧
    statLookup (get_statistics st) "consecutive_same_type" = none := by
  have hs : get_statistics st =
      [("total_errors", .natV 0), ("by_type", .byTypeV []), ("recent_errors", .natV 0),
       ("recovery_attempts", .natV 0), ("most_common_error", .optStr none),
       ("unique_files_affected", .natV 0), ("avg_errors_per_file", .ratV 0)] := by
    simp [get_statistics, h]
  refine ⟨hs, ?_, ?_⟩ <;> rw [hs] <;> decide

/-- Witness for C6 (amended) at the freshly constructed detector. -/
theorem claim_C6_witness :
    get_statistics initState =
      [("total_errors", .natV 0), ("by_type", .byTypeV []), ("recent_errors", .natV 0),
       ("recovery_attempts", .natV 0), ("most_common_error", .optStr none),
       ("unique_files_affected", .natV 0), ("avg_errors_per_file", .ratV 0)] ∧
    statLookup (get_statistics initState) "error_rate" = none ∧
    statLookup (get_statistics initState) "consecutive_same_type" = none :=
  claim_C6_amended initState rfl

/-! Claim C5: short history gives no loop; a uniform non-unknown window
fires the repetitive-type rule -/

/-- C5: `detect_loop(window_size)` returns `(false, absent)` whenever the
history is shorter than the window; and whenever the history is at least as
long as the (positive) window and every record of the last `window_size`
records carries one `error_type` `t ≠ "unknown"`, it returns `(true, the
repetitive-type reason naming t)` — regardless of the records' files and
lines. -/
theorem claim_C5 (st : DetectorState) (window_size : Nat) :
    (st.error_history.length < window_size →
      detect_loop st window_size = (false, none)) ∧
    (∀ t, 1 ≤ window_size → window_size ≤ st.error_history.length → t ≠ "unknown" →
      (∀ r ∈ lastWindow st.error_history window_size, r.error_type = t) →
      detect_loop st window_size = (true, some (.repetitiveType t))) := by
  constructor
  · intro h
    rw [detect_loop, if_pos h]
  · intro t h1 hle ht hall
    have hnlt : ¬ st.error_history.length < window_size := Nat.not_lt.2 hle
    have hwlen : (lastWindow st.error_history window_size).length = window_size :=
      lastWindow_length (by omega) hle
    have hne : windowTypes st window_size ≠ [] := by
      rw [windowTypes, recentWindow]
      intro hnil
      rw [List.map_eq_nil_iff] at hnil
      rw [hnil] at hwlen
      simp at hwlen
      omega
    have hallt : ∀ x ∈ windowTypes st window_size, x = t := by
      intro x hx
      obtain ⟨r, hr, rfl⟩ := List.mem_map.1 hx
      exact hall r hr
    have hd : distincts (windowTypes st window_size) = [t] :=
      distincts_eq_singleton.2 ⟨hne, hallt⟩
    have hh : (windowTypes st window_size).headI = t := headI_of_all_eq hne hallt
    rw [detect_loop, if_neg hnlt, if_pos ⟨by rw [hd]; rfl, by rw [hh]; exact ht⟩, hh]

/-- Witness for C5: the empty history with window 5 gives no loop, and a
5-record uniform syntax history fires the repetitive-type rule. -/
theorem claim_C5_witness :
    detect_loop initState 5 = (false, none) ∧
    detect_loop (runOps (List.replicate 5 (Op.add infoSyntax))) 5 =
      (true, some (.repetitiveType "syntax")) :=
  ⟨(claim_C5 initState 5).1 (by decide),
   (claim_C5 (runOps (List.replicate 5 (Op.add infoSyntax))) 5).2 "syntax"
     (by decide) (by decide) (by decide) (by decide)⟩

/-! Claim C1: the alternating-two-types rule -/

theorem adjacentAllNe_map_firstChar {ta tb : String} (hfc : firstChar ta ≠ firstChar tb) :
    ∀ l : List String, (∀ x ∈ l, x = ta ∨ x = tb) → adjacentAllNe l = true →
      adjacentAllNe (l.map firstChar) = true
  | [], _, _ => rfl
  | [_], _, _ => rfl
  | a :: b :: rest, hmem, hadj => by
      have h1 : a ≠ b ∧ adjacentAllNe (b :: rest) = true := by
        simpa [adjacentAllNe, Bool.and_eq_true, decide_eq_true_eq] using hadj
      have hrec := adjacentAllNe_map_firstChar hfc (b :: rest)
        (fun x hx => hmem x (List.mem_cons_of_mem _ hx)) h1.2
      have hfa : firstChar a ≠ firstChar b := by
        rcases hmem a (by simp) with ha | ha <;> rcases hmem b (by simp) with hb | hb <;>
          subst ha <;> subst hb
        · exact absurd rfl h1.1
        · exact hfc
        · exact fun h => hfc h.symm
        · exact absurd rfl h1.1
      simp only [List.map_cons]
      simp only [adjacentAllNe, Bool.and_eq_true, decide_eq_true_eq]
      exact ⟨hfa, by simpa [List.map_cons] using hrec⟩

/-- C1 counterexample: a 5-record window strictly alternating between
`indentation` and `import` (exactly two distinct types, no two adjacent
records share a type, uniform-type rule silent because two types are
present, same-line rule silent because no record has a positive line), on
which `detect_loop(5)` nevertheless returns `(false, none)` instead of the
claimed alternation verdict: the rule compares only the *first character*
of each type tag, and both tags start with `i`. -/
theorem claim_C1_counterexample :
    windowTypes (runOps c1Ops) 5 =
      ["indentation", "import", "indentation", "import", "indentation"] ∧
    distincts (windowTypes (runOps c1Ops) 5) = ["indentation", "import"] ∧
    adjacentAllNe (windowTypes (runOps c1Ops) 5) = true ∧
    ¬ (3 ≤ (linesOf (recentWindow (runOps c1Ops) 5)).length ∧
       (distincts (linesOf (recentWindow (runOps c1Ops) 5))).length = 1) ∧
    detect_loop (runOps c1Ops) 5 = (false, none) := by decide

/-- C1 (amended): for every history whose last `window_size` records
(`window_size ≥ 5`, `len(history) ≥ window_size`) contain exactly 2 distinct
`error_type` values whose sequence strictly alternates across the entire
window, on which the same-line rule does not fire (the uniform-type rule
cannot fire with two distinct types), and whose two type names begin with
*different first characters*, `detect_loop(window_size)` returns `(true, a
reason identifying alternation between those two types)`.  For pairs whose
names share the first character — such as `indentation` and `import`, or
`undefined` and `unknown` — the rule does not fire, because the alternation
check inspects only the first character of each type tag. -/
theorem claim_C1_amended (st : DetectorState) (window_size : Nat) (ta tb : String)
    (hws : 5 ≤ window_size) (hlen : window_size ≤ st.error_history.length)
    (hd : distincts (windowTypes st window_size) = [ta, tb])
    (hadj : adjacentAllNe (windowTypes st window_size) = true)
    (hline : ¬ (3 ≤ (linesOf (recentWindow st window_size)).length ∧
      (distincts (linesOf (recentWindow st window_size))).length = 1))
    (hfc : firstChar ta ≠ firstChar tb) :
    detect_loop st window_size = (true, some (.alternating [ta, tb])) := by
  have hnlt : ¬ st.error_history.length < window_size := Nat.not_lt.2 hlen
  have hwlen : (windowTypes st window_size).length = window_size := by
    rw [windowTypes, List.length_map, recentWindow]
    exact lastWindow_length (by omega) hlen
  have hguard1 : ¬ ((distincts (windowTypes st window_size)).length = 1 ∧
      (windowTypes st window_size).headI ≠ "unknown") := by
    rintro ⟨h1, -⟩
    rw [hd] at h1
    simp at h1
  have hmem : ∀ x ∈ windowTypes st window_size, x = ta ∨ x = tb := by
    intro x hx
    have : x ∈ distincts (windowTypes st window_size) := mem_distincts.2 hx
    rw [hd] at this
    simpa using this
  have halt : isAlternating ((windowTypes st window_size).map firstChar) = true := by
    rw [isAlternating, if_neg]
    · exact adjacentAllNe_map_firstChar hfc _ hmem hadj
    · rw [List.length_map, hwlen]
      omega
  rw [detect_loop, if_neg hnlt, if_neg hguard1, if_neg hline,
    if_pos ⟨by rw [hd]; rfl, halt⟩, hd]

/-- Witness for C1 (amended): alternating `syntax`/`indentation` — first
characters `s` and `i` differ — fires the alternation rule. -/
theorem claim_C1_witness :
    detect_loop (runOps altOps) 5 =
      (true, some (.alternating ["syntax", "indentation"])) :=
  claim_C1_amended (runOps altOps) 5 "syntax" "indentation"
    (by decide) (by decide) (by decide) (by decide) (by decide) (by decide)

/-! Claim C7: composition of the recovery suggestion -/

/-- C7: for every non-empty history, the recovery suggestion starts with the
base message for the most recent record's type; it contains the same-type
frequency warning naming the cumulative count iff that count is ≥ 3; it
contains the total-volume warning iff the history length is ≥ 7; and when
both apply, the frequency warning precedes the total-volume warning, both
after the base message. -/
theorem claim_C7 (st : DetectorState) (last : ErrorRecord)
    (hl : st.error_history.getLast? = some last) :
    ∀ parts, get_recovery_suggestion st = some parts →
      parts.head? = some (.base last.error_type) ∧
      (SuggestionPart.frequencyWarning (counterGet st.pattern_counters last.error_type)
          last.error_type ∈ parts ↔
        3 ≤ counterGet st.pattern_counters last.error_type) ∧
      (SuggestionPart.totalWarning st.error_history.length ∈ parts ↔
        7 ≤ st.error_history.length) ∧
      (3 ≤ counterGet st.pattern_counters last.error_type →
        7 ≤ st.error_history.length →
        parts = [.base last.error_type,
                 .frequencyWarning (counterGet st.pattern_counters last.error_type)
                   last.error_type,
                 .totalWarning st.error_history.length]) := by
  intro parts hparts
  simp only [get_recovery_suggestion, hl] at hparts
  by_cases h3 : 3 ≤ counterGet st.pattern_counters last.error_type
  · by_cases h7 : 7 ≤ st.error_history.length
    · rw [if_pos h3, if_pos h7] at hparts
      injection hparts with hp
      subst hp
      simp [h3, h7]
    · rw [if_pos h3, if_neg h7] at hparts
      injection hparts with hp
      subst hp
      simp [h3, h7]
  · by_cases h7 : 7 ≤ st.error_history.length
    · rw [if_neg h3, if_pos h7] at hparts
      injection hparts with hp
      subst hp
      simp [h3, h7]
    · rw [if_neg h3, if_neg h7] at hparts
      injection hparts with hp
      subst hp
      simp [h3, h7]

/-- Witness for C7 after seven syntax errors: both escalations fire, in
order after the base message. -/
theorem claim_C7_witness :
    (runOps sevenOps).error_history.getLast? = some rec7 ∧
    get_recovery_suggestion (runOps sevenOps) = some parts7 ∧
    parts7 = [.base rec7.error_type,
              .frequencyWarning (counterGet (runOps sevenOps).pattern_counters
                rec7.error_type) rec7.error_type,
              .totalWarning (runOps sevenOps).error_history.length] :=
  ⟨by decide, by decide,
   (claim_C7 (runOps sevenOps) rec7 (by decide) parts7 (by decide)).2.2.2
     (by decide) (by decide)⟩

/-! Claim C8: characterization of should_suggest_alternative_approach -/

/-- C8: `should_suggest_alternative_approach()` returns true iff the history
length is ≥ 5, or the length is ≥ 3 and the last 3 records share one
`error_type` different from `unknown`; in particular it is true for every
history of length ≥ 5 and false below length 3. -/
theorem claim_C8 (st : DetectorState) :
    should_suggest_alternative_approach st = true ↔
      (5 ≤ st.error_history.length ∨
        (3 ≤ st.error_history.length ∧ ∃ t, t ≠ "unknown" ∧
          ∀ r ∈ lastWindow st.error_history 3, r.error_type = t)) := by
  by_cases hlt : st.error_history.length < 3
  · rw [should_suggest_alternative_approach, if_pos hlt]
    constructor
    · intro h
      simp at h
    · rintro (h | ⟨h, -⟩) <;> omega
  · rw [should_suggest_alternative_approach, if_neg hlt]
    have h3 : 3 ≤ st.error_history.length := Nat.not_lt.1 hlt
    by_cases h5 : 5 ≤ st.error_history.length
    · have hwin : (lastWindow st.error_history 5).length = 5 :=
        lastWindow_length (by omega) h5
      simp [h5, hwin]
    · have h8 : ¬ 8 ≤ st.error_history.length := by omega
      have hwin3 : (lastWindow st.error_history 3).length = 3 :=
        lastWindow_length (by omega) h3
      have hne : (lastWindow st.error_history 3).map (fun e => e.error_type) ≠ [] := by
        intro hnil
        rw [List.map_eq_nil_iff] at hnil
        rw [hnil] at hwin3
        simp at hwin3
      rw [if_neg h5, if_pos h3]
      have hd8 : decide (8 ≤ st.error_history.length) = false := decide_eq_false h8
      rw [hd8]
      simp only [Bool.false_or, Bool.or_false, decide_eq_true_eq]
      constructor
      · rintro ⟨h1, hhd⟩
        have hsing := distincts_length_one h1
        refine Or.inr ⟨h3, ((lastWindow st.error_history 3).map
          (fun e => e.error_type)).headI, hhd, ?_⟩
        intro r hr
        have hmem : r.error_type ∈
            (lastWindow st.error_history 3).map (fun e => e.error_type) :=
          List.mem_map_of_mem _ hr
        have := mem_distincts.2 hmem
        rw [hsing] at this
        simpa using this
      · rintro (h | ⟨-, t, ht, hall⟩)
        · exact absurd h h5
        · have hallt : ∀ x ∈ (lastWindow st.error_history 3).map
              (fun e => e.error_type), x = t := by
            intro x hx
            obtain ⟨r, hr, rfl⟩ := List.mem_map.1 hx
            exact hall r hr
          have hd := distincts_eq_singleton.2 ⟨hne, hallt⟩
          have hh := headI_of_all_eq hne hallt
          exact ⟨by rw [hd]; rfl, by rw [hh]; exact ht⟩

/-! Claim C4: state invariants under every call sequence -/

theorem timestampsIndexed_append {l : List ErrorRecord} {e : ErrorRecord}
    (hl : timestampsIndexed l) (he : e.timestamp = l.length) :
    timestampsIndexed (l ++ [e]) := by
  intro i h
  simp only [List.get_eq_getElem]
  by_cases hi : i < l.length
  · rw [List.getElem_append_left hi]
    have := hl i hi
    simpa using this
  · have hieq : i = l.length := by
      simp only [List.length_append, List.length_singleton] at h
      omega
    rw [List.getElem_concat_length _ _ _ hieq]
    omega

theorem stateInv_applyOp {st : DetectorState} (hst : stateInv st) (op : Op) :
    stateInv (applyOp st op) := by
  cases op with
  | reset =>
      refine ⟨?_, rfl⟩
      intro i h
      simp [applyOp, initState] at h
  | add info =>
      cases hm : info.message with
      | none =>
          simp only [applyOp, add_error, hm]
          exact hst
      | some m =>
          simp only [applyOp, add_error, hm]
          refine ⟨timestampsIndexed_append hst.1 rfl, ?_⟩
          rw [counterSum_incr, hst.2]
          simp

theorem stateInv_foldl : ∀ (ops : List Op) (st : DetectorState),
    stateInv st → stateInv (ops.foldl applyOp st)
  | [], _, h => h
  | op :: ops, st, h => stateInv_foldl ops (applyOp st op) (stateInv_applyOp h op)

theorem stateInv_runOps (ops : List Op) : stateInv (runOps ops) := by
  rw [runOps]
  refine stateInv_foldl ops initState ⟨?_, rfl⟩
  intro i h
  simp [initState] at h

/-- C4: after every sequence of `add_error` and `reset` calls on a fresh
detector, `history[i].sequence_index == i` for every index `i`, and the
counter values sum to the history length. -/
theorem claim_C4 (ops : List Op) :
    (∀ i (h : i < (runOps ops).error_history.length),
      ((runOps ops).error_history.get ⟨i, h⟩).timestamp = i) ∧
    counterSum (runOps ops).pattern_counters = (runOps ops).error_history.length :=
  ⟨(stateInv_runOps ops).1, (stateInv_runOps ops).2⟩

/-- Witness for C4 on a concrete mixed call sequence. -/
theorem claim_C4_witness :
    ((runOps c4Ops).error_history.get ⟨1, by decide⟩).timestamp = 1 ∧
    counterSum (runOps c4Ops).pattern_counters = (runOps c4Ops).error_history.length :=
  ⟨(claim_C4 c4Ops).1 1 (by decide), (claim_C4 c4Ops).2⟩

/-! Claim C9 development -/

theorem countS_nil {α : Type} [DecidableEq α] (t : α) : countS t [] = 0 := rfl

theorem countS_cons_self {α : Type} [DecidableEq α] (t : α) (m : List α) :
    countS t (t :: m) = countS t m + 1 := by
  simp [countS]

theorem countS_cons_ne {α : Type} [DecidableEq α] {u t : α} (h : u ≠ t) (m : List α) :
    countS t (u :: m) = countS t m := by
  simp [countS, h]

theorem counterIncr_of_not_mem : ∀ (cs : List (String × Nat)) (t : String),
    t ∉ cs.map Prod.fst → counterIncr cs t = cs ++ [(t, 1)]
  | [], t, _ => rfl
  | (k, n) :: rest, t, h => by
      have hk : ¬ k = t := by
        intro hkt
        exact h (by simp [hkt])
      have hr : t ∉ rest.map Prod.fst := by
        intro hr
        exact h (by simp [hr])
      simp only [counterIncr, if_neg hk, List.cons_append]
      rw [counterIncr_of_not_mem rest t hr]

theorem map_eq_of_forall_eq {α β : Type} : ∀ (l : List α) (f g : α → β),
    (∀ x ∈ l, f x = g x) → l.map f = l.map g
  | [], _, _, _ => rfl
  | x :: xs, f, g, h => by
      simp only [List.map_cons]
      rw [h x (List.mem_cons_self _ _),
        map_eq_of_forall_eq xs f g (fun y hy => h y (List.mem_cons_of_mem _ hy))]

theorem counterIncr_of_mem : ∀ (cs : List (String × Nat)) (t : String),
    (cs.map Prod.fst).Nodup → t ∈ cs.map Prod.fst →
    counterIncr cs t = cs.map (fun p => if p.1 = t then (p.1, p.2 + 1) else p)
  | [], t, _, hmem => by simp at hmem
  | (k, n) :: rest, t, hnd, hmem => by
      simp only [List.map_cons, List.nodup_cons] at hnd
      by_cases hk : k = t
      · subst hk
        have hrest : rest.map (fun p => if p.1 = k then (p.1, p.2 + 1) else p) = rest := by
          have : rest.map (fun p => if p.1 = k then (p.1, p.2 + 1) else p) =
              rest.map (fun p => p) := by
            refine map_eq_of_forall_eq rest _ _ ?_
            intro p hp
            have hpk : ¬ p.1 = k := by
              intro hpk
              exact hnd.1 (hpk ▸ List.mem_map_of_mem Prod.fst hp)
            simp [hpk]
          simpa using this
        simp [counterIncr, hrest]
      · have hmem' : t ∈ rest.map Prod.fst := by
          rcases List.mem_cons.1 hmem with h | h
          · exact absurd h.symm hk
          · exact h
        simp only [counterIncr, if_neg hk, List.map_cons, if_neg hk]
        rw [counterIncr_of_mem rest t hnd.2 hmem']

theorem foldl_counterIncr_eq : ∀ (m : List String) (cs : List (String × Nat)),
    (cs.map Prod.fst).Nodup →
    m.foldl counterIncr cs =
      cs.map (fun p => (p.1, p.2 + countS p.1 m)) ++
      (firstSeenNew (cs.map Prod.fst) m).map (fun t => (t, countS t m))
  | [], cs, _ => by
      simp [firstSeenNew, countS]
  | t :: m, cs, hnd => by
      rw [List.foldl_cons]
      by_cases ht : t ∈ cs.map Prod.fst
      · rw [counterIncr_of_mem cs t hnd ht]
        have hkeys : (cs.map (fun p => if p.1 = t then (p.1, p.2 + 1) else p)).map Prod.fst =
            cs.map Prod.fst := by
          rw [List.map_map]
          refine map_eq_of_forall_eq cs _ _ ?_
          intro p hp
          by_cases hpt : p.1 = t <;> simp [hpt]
        rw [foldl_counterIncr_eq m _ (by rw [hkeys]; exact hnd)]
        rw [hkeys]
        congr 1
        · rw [List.map_map]
          refine map_eq_of_forall_eq cs _ _ ?_
          intro p hp
          by_cases hpt : p.1 = t
          · subst hpt
            simp only [Function.comp, if_true]
            simp only [countS_cons_self, Prod.mk.injEq, true_and]
            omega
          · have hpt' : t ≠ p.1 := fun h => hpt h.symm
            simp only [Function.comp, if_neg hpt, countS_cons_ne hpt']
        · rw [firstSeenNew, if_pos ht]
          refine map_eq_of_forall_eq _ _ _ ?_
          intro u hu
          have hu' : u ∉ cs.map Prod.fst := (mem_firstSeenNew.1 hu).2
          have hut : t ≠ u := fun h => hu' (h ▸ ht)
          rw [countS_cons_ne hut]
      · rw [counterIncr_of_not_mem cs t ht]
        have hkeys : (cs ++ [(t, 1)]).map Prod.fst = cs.map Prod.fst ++ [t] := by
          simp
        have hnd' : ((cs ++ [(t, 1)]).map Prod.fst).Nodup := by
          rw [hkeys, List.nodup_append]
          exact ⟨hnd, List.nodup_singleton t, by simpa using ht⟩
        rw [foldl_counterIncr_eq m _ hnd']
        rw [hkeys]
        rw [firstSeenNew, if_neg ht]
        have h1 : cs.map (fun p => (p.1, p.2 + countS p.1 m)) =
            cs.map (fun p => (p.1, p.2 + countS p.1 (t :: m))) := by
          refine map_eq_of_forall_eq cs _ _ ?_
          intro p hp
          have hpt : ¬ p.1 = t := by
            intro hpt
            exact ht (hpt ▸ List.mem_map_of_mem Prod.fst hp)
          rw [countS_cons_ne (fun h => hpt h.symm)]
        have h3 : (firstSeenNew (cs.map Prod.fst ++ [t]) m).map (fun u => (u, countS u m)) =
            (firstSeenNew (cs.map Prod.fst ++ [t]) m).map
              (fun u => (u, countS u (t :: m))) := by
          refine map_eq_of_forall_eq _ _ _ ?_
          intro u hu
          have hu' : u ∉ cs.map Prod.fst ++ [t] := (mem_firstSeenNew.1 hu).2
          have hut : t ≠ u := by
            intro h
            exact hu' (by simp [h])
          rw [countS_cons_ne hut]
        rw [List.map_append, List.map_cons, h1, h3, List.append_assoc]
        congr 1
        simp only [List.map_cons, List.map_nil, List.singleton_append]
        congr 1
        rw [countS_cons_self]
        simp [Nat.add_comm]

theorem countersOfTypes_eq (m : List String) :
    countersOfTypes m = (distincts m).map (fun t => (t, countS t m)) := by
  rw [countersOfTypes, foldl_counterIncr_eq m [] (by simp)]
  simp [distincts]

theorem firstSeenNew_nodup {α : Type} [DecidableEq α] :
    ∀ (m seen : List α), (firstSeenNew seen m).Nodup
  | [], _ => List.nodup_nil
  | t :: m, seen => by
      by_cases ht : t ∈ seen
      · rw [firstSeenNew, if_pos ht]
        exact firstSeenNew_nodup m seen
      · rw [firstSeenNew, if_neg ht]
        refine List.nodup_cons.2 ⟨?_, firstSeenNew_nodup m (seen ++ [t])⟩
        intro hmem
        have := (mem_firstSeenNew.1 hmem).2
        exact this (by simp)

theorem firstSeenNew_idx_lt {α : Type} [DecidableEq α] :
    ∀ (m seen u : List α) (a : α) (w : List α) (b : α),
      firstSeenNew seen m = u ++ a :: w → b ∈ w →
      firstIdx a m < firstIdx b m
  | [], seen, u, a, w, b, h, _ => by
      cases u <;> simp [firstSeenNew] at h
  | t :: m, seen, u, a, w, b, h, hb => by
      by_cases ht : t ∈ seen
      · rw [firstSeenNew, if_pos ht] at h
        have ha : a ∈ firstSeenNew seen m := by
          rw [h]; exact List.mem_append_right _ (List.mem_cons_self _ _)
        have hbm : b ∈ firstSeenNew seen m := by
          rw [h]; exact List.mem_append_right _ (List.mem_cons_of_mem _ hb)
        have hat : ¬ t = a := fun he => (mem_firstSeenNew.1 ha).2 (he ▸ ht)
        have hbt : ¬ t = b := fun he => (mem_firstSeenNew.1 hbm).2 (he ▸ ht)
        have := firstSeenNew_idx_lt m seen u a w b h hb
        rw [firstIdx, if_neg hat, firstIdx, if_neg hbt]
        omega
      · rw [firstSeenNew, if_neg ht] at h
        cases u with
        | nil =>
            simp only [List.nil_append] at h
            have hat : a = t := (List.cons.injEq _ _ _ _ ▸ h).1.symm
            have hw : w = firstSeenNew (seen ++ [t]) m := ((List.cons.injEq _ _ _ _ ▸ h).2).symm
            have hbm : b ∈ firstSeenNew (seen ++ [t]) m := hw ▸ hb
            have hbt : ¬ t = b := by
              intro he
              exact (mem_firstSeenNew.1 hbm).2 (by simp [he])
            subst hat
            rw [firstIdx, if_pos rfl, firstIdx, if_neg hbt]
            omega
        | cons u0 u' =>
            simp only [List.cons_append] at h
            have hu0 : t = u0 := (List.cons.injEq _ _ _ _ ▸ h).1
            have hrest : firstSeenNew (seen ++ [t]) m = u' ++ a :: w :=
              (List.cons.injEq _ _ _ _ ▸ h).2
            have ha : a ∈ firstSeenNew (seen ++ [t]) m := by
              rw [hrest]; exact List.mem_append_right _ (List.mem_cons_self _ _)
            have hbm : b ∈ firstSeenNew (seen ++ [t]) m := by
              rw [hrest]; exact List.mem_append_right _ (List.mem_cons_of_mem _ hb)
            have hat : ¬ t = a := by
              intro he
              exact (mem_firstSeenNew.1 ha).2 (by simp [he])
            have hbt : ¬ t = b := by
              intro he
              exact (mem_firstSeenNew.1 hbm).2 (by simp [he])
            have := firstSeenNew_idx_lt m (seen ++ [t]) u' a w b hrest hb
            rw [firstIdx, if_neg hat, firstIdx, if_neg hbt]
            omega

theorem foldl_pickMax_le : ∀ (l : List (String × Nat)) (b : String × Nat),
    (∀ y ∈ l, y.2 ≤ b.2) → l.foldl pickMax b = b
  | [], _, _ => rfl
  | y :: l, b, h => by
      rw [List.foldl_cons]
      have hy : ¬ b.2 < y.2 := Nat.not_lt.2 (h y (List.mem_cons_self _ _))
      rw [pickMax, if_neg hy]
      exact foldl_pickMax_le l b (fun z hz => h z (List.mem_cons_of_mem _ hz))

theorem foldl_pickMax_lt : ∀ (l : List (String × Nat)) (b : String × Nat) (v : Nat),
    (∀ y ∈ l, y.2 < v) → b.2 < v → (l.foldl pickMax b).2 < v
  | [], _, _, _, hb => hb
  | y :: l, b, v, h, hb => by
      rw [List.foldl_cons]
      refine foldl_pickMax_lt l _ v (fun z hz => h z (List.mem_cons_of_mem _ hz)) ?_
      rw [pickMax]
      by_cases hc : b.2 < y.2
      · rw [if_pos hc]; exact h y (List.mem_cons_self _ _)
      · rw [if_neg hc]; exact hb

theorem maxByCount_split (l₁ l₂ : List (String × Nat)) (x : String × Nat)
    (h₁ : ∀ y ∈ l₁, y.2 < x.2) (h₂ : ∀ y ∈ l₂, y.2 ≤ x.2) :
    maxByCount (l₁ ++ x :: l₂) = some x := by
  cases l₁ with
  | nil =>
      simp only [List.nil_append, maxByCount]
      rw [foldl_pickMax_le l₂ x h₂]
  | cons a l₁' =>
      simp only [List.cons_append, maxByCount]
      rw [List.foldl_append, List.foldl_cons]
      have hb : (l₁'.foldl pickMax a).2 < x.2 :=
        foldl_pickMax_lt l₁' a x.2
          (fun y hy => h₁ y (List.mem_cons_of_mem _ hy))
          (h₁ a (List.mem_cons_self _ _))
      rw [pickMax, if_pos hb]
      rw [foldl_pickMax_le l₂ x h₂]

theorem pattern_counters_eq_countersOfTypes (ops : List Op) :
    (runOps ops).pattern_counters =
      countersOfTypes ((runOps ops).error_history.map (fun e => e.error_type)) := by
  rw [runOps]
  have step : ∀ (ops : List Op) (st : DetectorState),
      st.pattern_counters =
        countersOfTypes (st.error_history.map (fun e => e.error_type)) →
      (ops.foldl applyOp st).pattern_counters =
        countersOfTypes ((ops.foldl applyOp st).error_history.map
          (fun e => e.error_type)) := by
    intro ops
    induction ops with
    | nil => intro st h; exact h
    | cons op ops ih =>
        intro st h
        rw [List.foldl_cons]
        refine ih _ ?_
        cases op with
        | reset => rfl
        | add info =>
            cases hm : info.message with
            | none => simp only [applyOp, add_error, hm]; exact h
            | some msg =>
                simp only [applyOp, add_error, hm]
                rw [List.map_append, List.map_cons, List.map_nil]
                rw [countersOfTypes, List.foldl_append]
                rw [← countersOfTypes, ← h]
                rfl
  exact step ops initState rfl

theorem statLookup_most_common (st : DetectorState) (h : st.error_history ≠ []) :
    statLookup (get_statistics st) "most_common_error" =
      some (.optStr ((maxByCount st.pattern_counters).map (fun p => p.1))) := by
  rw [get_statistics, if_neg h]
  rfl

/-- C9: for every reachable non-empty history in which the type `ta` has a
maximal cumulative count and, among the types tied at that count, the
earliest first occurrence in the history, `get_statistics()` reports `ta`
as `most_common_error` — Python's `max` over the insertion-ordered counter
returns the first maximal entry, and counter insertion order is first-seen
order, so the tie-break is deterministic (first-seen wins). -/
theorem claim_C9 (ops : List Op) (ta : String)
    (hne : (runOps ops).error_history ≠ [])
    (hmem : ta ∈ (runOps ops).error_history.map (fun e => e.error_type))
    (hmax : ∀ t ∈ (runOps ops).error_history.map (fun e => e.error_type),
        countS t ((runOps ops).error_history.map (fun e => e.error_type)) ≤
        countS ta ((runOps ops).error_history.map (fun e => e.error_type)))
    (htie : ∀ t ∈ (runOps ops).error_history.map (fun e => e.error_type),
        t ≠ ta →
        countS t ((runOps ops).error_history.map (fun e => e.error_type)) =
          countS ta ((runOps ops).error_history.map (fun e => e.error_type)) →
        firstIdx ta ((runOps ops).error_history.map (fun e => e.error_type)) <
          firstIdx t ((runOps ops).error_history.map (fun e => e.error_type))) :
    statLookup (get_statistics (runOps ops)) "most_common_error" =
      some (.optStr (some ta)) := by
  set m := (runOps ops).error_history.map (fun e => e.error_type) with hm
  have hta : ta ∈ distincts m := mem_distincts.2 hmem
  obtain ⟨u, w, hsplit⟩ := List.append_of_mem hta
  have hnd : (distincts m).Nodup := firstSeenNew_nodup m []
  have hmax' : maxByCount (runOps ops).pattern_counters = some (ta, countS ta m) := by
    rw [pattern_counters_eq_countersOfTypes, ← hm, countersOfTypes_eq, hsplit]
    rw [List.map_append, List.map_cons]
    refine maxByCount_split _ _ _ ?_ ?_
    · intro y hy
      obtain ⟨b, hb, rfl⟩ := List.mem_map.1 hy
      have hbmem : b ∈ distincts m := by
        rw [hsplit]; exact List.mem_append_left _ hb
      have hbm : b ∈ m := mem_distincts.1 hbmem
      have hle : countS b m ≤ countS ta m := hmax b hbm
      have hbta : b ≠ ta := by
        intro he
        subst he
        rw [hsplit, List.nodup_append] at hnd
        exact hnd.2.2 hb (List.mem_cons_self _ _)
      rcases Nat.lt_or_ge (countS b m) (countS ta m) with hlt | hge
      · exact hlt
      · exfalso
        have heq : countS b m = countS ta m := Nat.le_antisymm hle hge
        have h1 := htie b hbm hbta heq
        obtain ⟨u₁, u₂, hu⟩ := List.append_of_mem hb
        have hsplit' : distincts m = u₁ ++ b :: (u₂ ++ ta :: w) := by
          rw [hsplit, hu]
          simp
        have h2 : firstIdx b m < firstIdx ta m := by
          refine firstSeenNew_idx_lt m [] u₁ b (u₂ ++ ta :: w) ta ?_ ?_
          · rw [← distincts]; exact hsplit'
          · exact List.mem_append_right _ (List.mem_cons_self _ _)
        omega
    · intro y hy
      obtain ⟨b, hb, rfl⟩ := List.mem_map.1 hy
      have hbmem : b ∈ distincts m := by
        rw [hsplit]
        exact List.mem_append_right _ (List.mem_cons_of_mem _ hb)
      exact hmax b (mem_distincts.1 hbmem)
  rw [statLookup_most_common _ hne, hmax']
  rfl

/-- Witness for C9: with `syntax` and `indentation` tied at two occurrences
each and `syntax` seen first, `most_common_error` is `syntax`. -/
theorem claim_C9_witness :
    statLookup (get_statistics (runOps tieOps)) "most_common_error" =
      some (.optStr (some "syntax")) :=
  claim_C9 tieOps "syntax" (by decide) (by decide) (by decide) (by decide)

end PatternDetector

